import Mathlib

/-!
# A verification development for the go-flac FLAC metadata container library

This file gives a shallow embedding, in Lean 4, of the byte-level core of the
go-flac library: the metadata block codec (`parseMetadataBlock`,
`readMetadataBlocks`, `readFLACHead`, `checkFLACStream`), the stream-info
decoder (`GetStreamInfo` over a `bytes.Reader`), the container assembler
(`File.WriteTo`), and the in-place save engine (`saveInPlace`).

Byte streams are modelled as `List Nat` whose elements are intended to lie
below 256 (Go's `[]byte`); theorems carry explicit `< 256` hypotheses where
the byte bound matters.  Fallible Go functions returning `(T, error)` become
`Except Err T`.  `bytes.Reader` (which supports relative `Seek`) is modelled
as a zipper of consumed and remaining bytes.
-/

namespace GoFlac

/-- Decidable equality for `Except`, so that concrete runs of the embedded
functions can be checked by `decide`. -/
instance {ε α : Type} [DecidableEq ε] [DecidableEq α] :
    DecidableEq (Except ε α) := fun a b =>
  match a, b with
  | .ok x, .ok y =>
    if h : x = y then .isTrue (by rw [h])
    else .isFalse (by intro hc; cases hc; exact h rfl)
  | .error x, .error y =>
    if h : x = y then .isTrue (by rw [h])
    else .isFalse (by intro hc; cases hc; exact h rfl)
  | .ok _, .error _ => .isFalse (by intro hc; cases hc)
  | .error _, .ok _ => .isFalse (by intro hc; cases hc)

/-- The error kinds surfaced by the library (`errors.go` plus the generic
I/O failures of the Go standard library, all truncation-style read errors
(`io.EOF`, `io.ErrUnexpectedEOF`) collapsed into `truncatedStream`). -/
inductive Err where
  | truncatedStream
  | noFLACHeader
  | noStreamInfo
  | noSyncCode
  | alreadyWritten
  | sizeOverflow
  | corruptedLayout
  | ioFailure
deriving DecidableEq, Repr

/-- `type BlockType int`; the block type tag of a metadata block. -/
abbrev BlockType := Nat

/-- Block type constant `StreamInfo = 0`. -/
def StreamInfo : BlockType := 0
/-- Block type constant `Padding = 1`. -/
def Padding : BlockType := 1

/-- `MetaDataBlock`: a type tag (`BlockType`, an integer) together with
the raw payload bytes. -/
structure MetaDataBlock where
  type : Nat
  data : List Nat
deriving DecidableEq, Repr

/-- Big-endian value of a byte list (`binary.BigEndian` decoding). -/
def beVal (bs : List Nat) : Nat := bs.foldl (fun a b => a * 256 + b) 0

/-- `io.ReadFull` on a byte stream: exactly `n` bytes or a truncation error
(either `io.EOF` or `io.ErrUnexpectedEOF` in Go). -/
def readFull (n : Nat) (s : List Nat) : Except Err (List Nat × List Nat) :=
  if n ≤ s.length then .ok (s.take n, s.drop n) else .error .truncatedStream

/-- The 4 magic bytes `"fLaC"`. -/
def magicFLAC : List Nat := [102, 76, 97, 67]

/-- `readFLACHead`: consume 4 bytes and check them against the magic tag. -/
def readFLACHead (s : List Nat) : Except Err (List Nat) :=
  match readFull 4 s with
  | .error e => .error e
  | .ok (m, s) => if m = magicFLAC then .ok s else .error .noFLACHeader

/-- `parseMetadataBlock`: read a 4-byte header (`isfinal` = bit 7 of byte 0,
`type` = low 7 bits of byte 0 via `header[0]<<1>>1`, length = the big-endian
32-bit value of the header with the top byte masked off via `<<8>>8`), then
read exactly `length` payload bytes. -/
def parseMetadataBlock (s : List Nat) :
    Except Err (MetaDataBlock × Bool × List Nat) :=
  match readFull 4 s with
  | .error e => .error e
  | .ok (header, s1) =>
    let h0 := header.getD 0 0
    let length := beVal header % 2 ^ 24
    match readFull length s1 with
    | .error e => .error e
    | .ok (payload, s2) => .ok (⟨h0 % 128, payload⟩, h0 / 128 ≠ 0, s2)

/-- The block loop of `readMetadataBlocks`, made structurally recursive on
a fuel bound; each iteration consumes at least 4 bytes, so any fuel above
the stream length behaves identically (see `readMetadataBlocksAux_fuel`). -/
def readMetadataBlocksAux : Nat → List Nat →
    Except Err (List MetaDataBlock × List Nat)
  | 0, _ => .error .truncatedStream
  | fuel + 1, s =>
    match parseMetadataBlock s with
    | .error e => .error e
    | .ok (b, true, s') => .ok ([b], s')
    | .ok (b, false, s') =>
      match readMetadataBlocksAux fuel s' with
      | .error e => .error e
      | .ok (bs, s'') => .ok (b :: bs, s'')

/-- `readMetadataBlocks`: parse blocks until one carries the final flag. -/
def readMetadataBlocks (s : List Nat) :
    Except Err (List MetaDataBlock × List Nat) :=
  readMetadataBlocksAux (s.length + 1) s

/-- `checkFLACStream`: read the first two frame bytes, check the sync
pattern (`b0 = 0xFF`, `b1 >> 2 = 0x3E`), and on success hand back a
`PrefixReader` that re-emits the two peeked bytes before the rest. -/
def checkFLACStream (s : List Nat) : Except Err (List Nat) :=
  match readFull 2 s with
  | .error e => .error e
  | .ok (two, rest) =>
    if two.getD 0 0 = 255 ∧ two.getD 1 0 / 4 = 62 then
      .ok (two ++ rest)
    else
      .error .noSyncCode

/-- The state of a `File`'s frame source: either a readable byte stream
(a `PrefixReader` over the remainder of the parse input) or the poisoned
`ErrorReader` installed after a successful `WriteTo`. -/
inductive FrameReader where
  | bytesReader (bs : List Nat)
  | errorReader (e : Err)
deriving DecidableEq, Repr

/-- `File`: the ordered metadata list plus the optional frame source
(`Frames io.Reader`, `none` modelling a nil reader). -/
structure File where
  meta : List MetaDataBlock
  frames : Option FrameReader
deriving DecidableEq, Repr

/-- `ParseMetadata` (list level): magic check then the block loop, also
returning the unread remainder of the stream. -/
def parseMetadataL (s : List Nat) :
    Except Err (List MetaDataBlock × List Nat) :=
  match readFLACHead s with
  | .error e => .error e
  | .ok s => readMetadataBlocks s

/-- `ParseMetadata`: parse magic and blocks; `Frames` is left nil. -/
def parseMetadata (s : List Nat) : Except Err File :=
  match parseMetadataL s with
  | .error e => .error e
  | .ok (meta, _) => .ok ⟨meta, none⟩

/-- `ParseBytes`: `ParseMetadata` followed by the frame sync check; the
frame source is the `PrefixReader` returned by `checkFLACStream`. -/
def parseBytes (s : List Nat) : Except Err File :=
  match parseMetadataL s with
  | .error e => .error e
  | .ok (meta, rest) =>
    match checkFLACStream rest with
    | .error e => .error e
    | .ok fr => .ok ⟨meta, some (.bytesReader fr)⟩

/-- Modelled from the spec: `MetaDataBlock.Marshal` (the spec's
`marshalOne`) is declared in `metadata.go`, which is not among the source
files here; per §4.2 of the spec it "produces header byte0 =
(isLastFlag<<7)|type, bytes1–3 = big-endian 24-bit length of payload;
fails if payload length exceeds 2^24−1", followed by the payload bytes
verbatim (failure kind `SizeOverflow`, spec §7). -/
def marshalOne (b : MetaDataBlock) (isLast : Bool) : Except Err (List Nat) :=
  if b.data.length ≤ 2 ^ 24 - 1 then
    .ok (((cond isLast 1 0) <<< 7 ||| b.type) ::
      [b.data.length / 2 ^ 16 % 256, b.data.length / 2 ^ 8 % 256,
        b.data.length % 256] ++ b.data)
  else
    .error .sizeOverflow

/-- The block-marshalling loop of `WriteTo`: block `i` is marshalled with
`last := i == len(c.Meta)-1`. -/
def marshalAll : List MetaDataBlock → Except Err (List Nat)
  | [] => .ok []
  | [b] => marshalOne b true
  | b :: b' :: rest =>
    match marshalOne b false with
    | .error e => .error e
    | .ok hd =>
      match marshalAll (b' :: rest) with
      | .error e => .error e
      | .ok tl => .ok (hd ++ tl)

/-- `File.WriteTo` against an in-memory sink: write the magic, each
marshalled block (final flag positional), then stream the frames; when a
non-nil frame source was streamed (or attempted), the deferred handler
replaces it with `ErrorReader{ErrorAlreadyWritten}`.  Returns the bytes
that reached the sink on success, paired with the updated `File`. -/
def writeTo (c : File) : Except Err (List Nat) × File :=
  match marshalAll c.meta with
  | .error e => (.error e, c)
  | .ok body =>
    match c.frames with
    | none => (.ok (magicFLAC ++ body), c)
    | some (.bytesReader bs) =>
      (.ok (magicFLAC ++ body ++ bs),
        { c with frames := some (.errorReader .alreadyWritten) })
    | some (.errorReader e) =>
      (.error e, { c with frames := some (.errorReader .alreadyWritten) })

/-- `bytes.Reader`: a byte slice plus a read position, modelled as a zipper
of already-consumed bytes (held reversed) and the remaining bytes. -/
structure BReader where
  past : List Nat
  future : List Nat
deriving DecidableEq, Repr

/-- `binary.Read`'s `io.ReadFull` on a `bytes.Reader`: exactly `n` bytes or
a truncation error (`io.EOF` / `io.ErrUnexpectedEOF`). -/
def brReadFull : Nat → BReader → Except Err (List Nat × BReader)
  | 0, r => .ok ([], r)
  | _ + 1, ⟨_, []⟩ => .error .truncatedStream
  | n + 1, ⟨p, x :: xs⟩ =>
    match brReadFull n ⟨x :: p, xs⟩ with
    | .error e => .error e
    | .ok (ys, r) => .ok (x :: ys, r)

/-- Take up to `n` elements of a list, returning them and the leftovers. -/
def takeUpTo : Nat → List Nat → List Nat × List Nat
  | 0, xs => ([], xs)
  | _ + 1, [] => ([], [])
  | n + 1, x :: xs =>
    let (ys, r) := takeUpTo n xs
    (x :: ys, r)

/-- `bytes.Reader.Read` into a buffer of size `n`: `io.EOF` when no bytes
remain, otherwise up to `n` bytes with no error (a short read reports
success). -/
def brRead (n : Nat) (r : BReader) : Except Err (List Nat × BReader) :=
  match r.future with
  | [] => .error .truncatedStream
  | _ =>
    let (got, rest) := takeUpTo n r.future
    .ok (got, ⟨got.reverse ++ r.past, rest⟩)

/-- `Seek(-1, io.SeekCurrent)` on a `bytes.Reader` (an error when the new
position would be negative). -/
def brBack1 (r : BReader) : Except Err BReader :=
  match r.past with
  | [] => .error .ioFailure
  | x :: p => .ok ⟨p, x :: r.future⟩

/-- Writing `got` bytes into the front of a reused Go byte buffer `old`;
the tail beyond the written bytes keeps its previous contents. -/
def overwrite (old got : List Nat) : List Nat := got ++ old.drop got.length

/-- The decoded view of the mandatory first metadata block
(`StreamInfoBlock` in `streamdata.go`). -/
structure StreamInfoBlock where
  blockSizeMin : Nat
  blockSizeMax : Nat
  frameSizeMin : Nat
  frameSizeMax : Nat
  sampleRate : Nat
  channelCount : Nat
  bitDepth : Nat
  sampleCount : Nat
  audioMD5 : List Nat
deriving DecidableEq, Repr

/-- The body of `File.GetStreamInfo` after the type check: the fixed-layout
decode of the stream-info payload `d` over `bytes.NewReader(d)`, porting
each read, buffer write, and relative seek of the Go code in order. -/
def getStreamInfoData (d : List Nat) : Except Err StreamInfoBlock :=
  match brReadFull 2 ⟨[], d⟩ with
  | .error e => .error e
  | .ok (bmin, r1) =>
  match brReadFull 2 r1 with
  | .error e => .error e
  | .ok (bmax, r2) =>
  match brRead 3 r2 with
  | .error e => .error e
  | .ok (g1, r3) =>
  let buf24a := overwrite [0, 0, 0] g1
  let fmin := beVal (0 :: buf24a)
  match brRead 3 r3 with
  | .error e => .error e
  | .ok (g2, r4) =>
  let buf24b := overwrite buf24a g2
  let fmax := beVal (0 :: buf24b)
  match brRead 3 r4 with
  | .error e => .error e
  | .ok (g3, r5) =>
  let smpl := overwrite [0, 0, 0] g3
  let srate := beVal (0 :: smpl) / 2 ^ 4
  match brBack1 r5 with
  | .error e => .error e
  | .ok r6 =>
  match brReadFull 1 r6 with
  | .error e => .error e
  | .ok (chb, r7) =>
  let chc := beVal chb * 2 ^ 4 % 2 ^ 8 / 2 ^ 5 + 1
  match brBack1 r7 with
  | .error e => .error e
  | .ok r8 =>
  match brReadFull 2 r8 with
  | .error e => .error e
  | .ok (bdb, r9) =>
  let bd := beVal bdb * 2 ^ 7 % 2 ^ 16 / 2 ^ 11 + 1
  match brBack1 r9 with
  | .error e => .error e
  | .ok r10 =>
  match brReadFull 4 r10 with
  | .error e => .error e
  | .ok (c32b, r11) =>
  match brReadFull 1 r11 with
  | .error e => .error e
  | .ok (c8b, r12) =>
  let scount := beVal c32b % 2 ^ 28 * 2 ^ 8 + beVal c8b
  match brRead 16 r12 with
  | .error e => .error e
  | .ok (g4, _) =>
  let md5 := overwrite (List.replicate 16 0) g4
  .ok ⟨beVal bmin, beVal bmax, fmin, fmax, srate, chc, bd, scount, md5⟩

/-- The outcome of `File.GetStreamInfo`, including the Go runtime panic
raised by the index expression `c.Meta[0]` on an empty metadata slice. -/
inductive SIResult where
  | panicked
  | failed (e : Err)
  | ok (s : StreamInfoBlock)
deriving DecidableEq, Repr

/-- `File.GetStreamInfo`: `c.Meta[0]` (a panic when `Meta` is empty), the
`StreamInfo` type check, then the fixed-layout decode of the payload. -/
def getStreamInfo (c : File) : SIResult :=
  match c.meta with
  | [] => .panicked
  | b :: _ =>
    if b.type ≠ StreamInfo then .failed .noStreamInfo
    else
      match getStreamInfoData b.data with
      | .error e => .failed e
      | .ok s => .ok s

/-- The tunable copy chunk size of the in-place engine (256 KiB). -/
def bufferSize : Nat := 256 * 1024

/-- `os.File.ReadAt` into a buffer of size `n`: exactly `n` bytes at offset
`pos`, erroring when the file ends first. -/
def readAt (c : List Nat) (pos n : Nat) : Except Err (List Nat) :=
  if pos + n ≤ c.length then .ok ((c.drop pos).take n) else .error .ioFailure

/-- `os.File.WriteAt`: overwrite the file bytes at offset `pos` with `bs`,
zero-filling any gap beyond the current end of file. -/
def writeAt (c : List Nat) (pos : Nat) (bs : List Nat) : List Nat :=
  c.take pos ++ List.replicate (pos - c.length) 0 ++ bs ++ c.drop (pos + bs.length)

/-- `os.File.Truncate`: cut the file to `n` bytes or extend it with zeros. -/
def truncateFile (c : List Nat) (n : Nat) : List Nat :=
  if n ≤ c.length then c.take n else c ++ List.replicate (n - c.length) 0

/-- `originalHeaderSize` as measured inside `saveInPlace`: re-parse the
metadata section and report the offset where the audio region begins
(`Seek(0, io.SeekCurrent)` after `ParseMetadata`). -/
def headerLength (s : List Nat) : Except Err Nat :=
  match parseMetadataL s with
  | .error e => .error e
  | .ok (_, rest) => .ok (s.length - rest.length)

/-- The expand-path copy loop of `saveInPlace` (`delta > 0`), structurally
recursive on a fuel bound (each iteration advances `i` by `bufferSize ≥ 1`,
so any fuel above `audio - i` behaves identically): move the audio region
up by `delta` bytes, copying `bufferSize` chunks from the end of the region
toward its start; the final (lowest) chunk is clamped. -/
def shiftFwdAux (orig audio delta : Nat) :
    Nat → Nat → List Nat → Except Err (List Nat)
  | 0, _, _ => .error .ioFailure
  | fuel + 1, i, content =>
    if i < audio then
      let readOffset : Int := (audio : Int) - i - bufferSize
      let chunkSize : Nat := if readOffset < 0 then audio - i else bufferSize
      let readPos : Nat :=
        if readOffset < 0 then orig else orig + (audio - i - bufferSize)
      match readAt content readPos chunkSize with
      | .error e => .error e
      | .ok buf =>
        shiftFwdAux orig audio delta fuel (i + bufferSize)
          (writeAt content (readPos + delta) buf)
    else .ok content

/-- The expand-path copy loop, started with sufficient fuel. -/
def shiftFwd (orig audio delta : Nat) (content : List Nat) :
    Except Err (List Nat) :=
  shiftFwdAux orig audio delta (audio + 1) 0 content

/-- The shrink-path copy loop of `saveInPlace` (`delta < 0`), structurally
recursive on a fuel bound: move the audio region down by `negDelta` bytes,
copying chunks from the start of the region toward its end; the final
chunk is clamped to the end of file, and a zero-sized chunk breaks. -/
def shiftBwdAux (orig audio negDelta total : Nat) :
    Nat → Nat → List Nat → Except Err (List Nat)
  | 0, _, _ => .error .ioFailure
  | fuel + 1, i, content =>
    if i < audio then
      let readPos := orig + i
      let chunkSize := if total < readPos + bufferSize then total - readPos
        else bufferSize
      if chunkSize = 0 then .ok content
      else
        match readAt content readPos chunkSize with
        | .error e => .error e
        | .ok buf =>
          shiftBwdAux orig audio negDelta total fuel (i + bufferSize)
            (writeAt content (readPos - negDelta) buf)
    else .ok content

/-- The shrink-path copy loop, started with sufficient fuel. -/
def shiftBwd (orig audio negDelta total : Nat) (content : List Nat) :
    Except Err (List Nat) :=
  shiftBwdAux orig audio negDelta total (audio + 1) 0 content

/-- `saveInPlace` acting on the byte contents of the target file: re-measure
the header, serialize the current metadata with `Frames` nil, guard against
a negative audio size, relocate the audio region according to the sign of
`delta`, resize the file, and overwrite the header region with the new
metadata bytes. -/
def saveInPlace (meta : List MetaDataBlock) (content : List Nat) :
    Except Err (List Nat) :=
  match headerLength content with
  | .error e => .error e
  | .ok origHdr =>
    match (writeTo ⟨meta, none⟩).1 with
    | .error e => .error e
    | .ok newMeta =>
      let total := content.length
      if (total : Int) - origHdr < 0 then .error .corruptedLayout
      else
        let audio := total - origHdr
        let newHdr := newMeta.length
        let delta : Int := (newHdr : Int) - origHdr
        let moved : Except Err (List Nat) :=
          if 0 < delta then
            shiftFwd origHdr audio (newHdr - origHdr)
              (truncateFile content (total + (newHdr - origHdr)))
          else if delta < 0 then
            match shiftBwd origHdr audio (origHdr - newHdr) total content with
            | .error e => .error e
            | .ok c => .ok (truncateFile c (total - (origHdr - newHdr)))
          else .ok content
        match moved with
        | .error e => .error e
        | .ok c => .ok (writeAt c 0 newMeta)

/-- The byte segment produced by a successful `marshalOne` (last-flag bit
and type in byte 0, 24-bit big-endian length, payload verbatim), for
blocks whose type fits in 7 bits. -/
def marshalBytes (b : MetaDataBlock) (isLast : Bool) : List Nat :=
  ((cond isLast 1 0) * 128 + b.type) ::
    b.data.length / 2 ^ 16 % 256 :: b.data.length / 2 ^ 8 % 256 ::
    b.data.length % 256 :: b.data

/-- The spec's bit-cursor reader (§4.1): bit `i` of a byte buffer, counted
most-significant-bit first within each byte. -/
def bitAt (d : List Nat) (i : Nat) : Nat :=
  d.getD (i / 8) 0 / 2 ^ (7 - i % 8) % 2

/-- The value of the `w`-bit big-endian group starting at bit offset
`off`, most-significant-bit first (spec §4.1). -/
def readBits (d : List Nat) (off : Nat) : Nat → Nat
  | 0 => 0
  | w + 1 => readBits d off w * 2 + bitAt d (off + w)

/-- The stream-info decode exactly as the spec words it (§4.3): successive
bit groups of widths 16, 16, 24, 24, 20, 3, 5, 36 (channel count and bit
depth stored minus one), then the 16 checksum bytes copied verbatim. -/
def specStreamInfo (d : List Nat) : StreamInfoBlock :=
  { blockSizeMin := readBits d 0 16
    blockSizeMax := readBits d 16 16
    frameSizeMin := readBits d 32 24
    frameSizeMax := readBits d 56 24
    sampleRate := readBits d 80 20
    channelCount := readBits d 100 3 + 1
    bitDepth := readBits d 103 5 + 1
    sampleCount := readBits d 108 36
    audioMD5 := (d.drop 18).take 16 }

/-- The 34-byte stream-info payload matching the library's test-suite
expectations (1152/1152 block sizes, frame sizes 1650/6130, 96 kHz,
2 channels, 24-bit depth, 3828096 samples, and the test checksum). -/
def exPayload : List Nat :=
  [4, 128, 4, 128, 0, 6, 114, 0, 23, 242, 23, 112, 3, 112, 0, 58, 105, 128,
   229, 209, 0, 198, 63, 81, 136, 144, 12, 102, 182, 166, 160, 140, 226, 235]

/-- A small but complete FLAC container: magic, a stream-info-typed block,
a padding block carrying the final flag, and a 5-byte frame region that
starts with the sync pattern. -/
def exFlac : List Nat :=
  magicFLAC ++ [0, 0, 0, 3, 9, 9, 9] ++ [129, 0, 0, 2, 5, 5] ++
    [255, 248, 1, 2, 3]

/-- The metadata block list parsed from `exFlac`. -/
def exMeta : List MetaDataBlock := [⟨0, [9, 9, 9]⟩, ⟨1, [5, 5]⟩]

/-- `exMeta` with a third block appended, used to exercise the expand path
of the in-place engine. -/
def exMetaGrow : List MetaDataBlock := exMeta ++ [⟨1, [7, 7, 7, 7]⟩]

/-- The bytes of `exFlac` after an in-place save with `exMetaGrow`. -/
def exFlacGrown : List Nat :=
  magicFLAC ++ [0, 0, 0, 3, 9, 9, 9] ++ [1, 0, 0, 2, 5, 5] ++
    [129, 0, 0, 4, 7, 7, 7, 7] ++ [255, 248, 1, 2, 3]

/-! ## Helper lemmas -/

theorem shiftFwdAux_succ (orig audio delta fuel i : Nat) (c : List Nat) :
    shiftFwdAux orig audio delta (fuel + 1) i c =
      if i < audio then
        match readAt c
            (if (audio : Int) - i - bufferSize < 0 then orig
              else orig + (audio - i - bufferSize))
            (if (audio : Int) - i - bufferSize < 0 then audio - i
              else bufferSize) with
        | .error e => .error e
        | .ok buf =>
          shiftFwdAux orig audio delta fuel (i + bufferSize)
            (writeAt c
              ((if (audio : Int) - i - bufferSize < 0 then orig
                else orig + (audio - i - bufferSize)) + delta) buf)
      else .ok c := rfl

theorem shiftBwdAux_succ (orig audio negDelta total fuel i : Nat)
    (c : List Nat) :
    shiftBwdAux orig audio negDelta total (fuel + 1) i c =
      if i < audio then
        if (if total < orig + i + bufferSize then total - (orig + i)
            else bufferSize) = 0 then .ok c
        else
          match readAt c (orig + i)
              (if total < orig + i + bufferSize then total - (orig + i)
                else bufferSize) with
          | .error e => .error e
          | .ok buf =>
            shiftBwdAux orig audio negDelta total fuel (i + bufferSize)
              (writeAt c (orig + i - negDelta) buf)
      else .ok c := rfl

theorem or_128_of_lt {t : Nat} (h : t < 128) : 128 ||| t = 128 + t := by
  interval_cases t <;> decide

theorem marshalOne_eq {b : MetaDataBlock} (hty : b.type < 128)
    (hlen : b.data.length ≤ 2 ^ 24 - 1) (last : Bool) :
    marshalOne b last = .ok (marshalBytes b last) := by
  have hb0 : (cond last 1 0) <<< 7 ||| b.type =
      (cond last 1 0) * 128 + b.type := by
    cases last
    · show (0 : Nat) <<< 7 ||| b.type = 0 * 128 + b.type
      simp [Nat.shiftLeft_eq]
    · show (1 : Nat) <<< 7 ||| b.type = 1 * 128 + b.type
      rw [show (1 : Nat) <<< 7 = 128 from rfl, or_128_of_lt hty]
  unfold marshalOne marshalBytes
  rw [if_pos hlen, hb0]
  rfl

theorem marshalAll_flags (l : List MetaDataBlock) (hne : l ≠ [])
    (hty : ∀ b ∈ l, b.type < 128)
    (hlen : ∀ b ∈ l, b.data.length ≤ 2 ^ 24 - 1) :
    ∃ segs : List (List Nat),
      marshalAll l = .ok segs.flatten ∧
      segs.length = l.length ∧
      ∀ i, i < segs.length →
        (segs.getD i []).getD 0 0 / 128 =
          if i = l.length - 1 then 1 else 0 := by
  induction l with
  | nil => exact absurd rfl hne
  | cons b tl ih =>
    have htyb : b.type < 128 := hty b (List.mem_cons_self _ _)
    have hlenb : b.data.length ≤ 2 ^ 24 - 1 := hlen b (List.mem_cons_self _ _)
    cases tl with
    | nil =>
      refine ⟨[marshalBytes b true], ?_, rfl, ?_⟩
      · have hm := marshalOne_eq htyb hlenb true
        simp [marshalAll, hm]
      · intro i hi
        simp only [List.length_cons, List.length_nil] at hi
        interval_cases i
        rw [List.getD_cons_zero, if_pos (by rfl)]
        have hg : (marshalBytes b true).getD 0 0 = 1 * 128 + b.type := rfl
        rw [hg]
        omega
    | cons b' tl' =>
      obtain ⟨segs, h1, h2, h3⟩ :=
        ih (by simp) (fun x hx => hty x (List.mem_cons_of_mem _ hx))
          (fun x hx => hlen x (List.mem_cons_of_mem _ hx))
      refine ⟨marshalBytes b false :: segs, ?_, by simp [h2], ?_⟩
      · have hm := marshalOne_eq htyb hlenb false
        simp [marshalAll, hm, h1]
      · intro i hi
        cases i with
        | zero =>
          rw [List.getD_cons_zero,
            if_neg (by simp only [List.length_cons]; omega)]
          have hg : (marshalBytes b false).getD 0 0 = 0 * 128 + b.type := rfl
          rw [hg]
          omega
        | succ j =>
          simp only [List.length_cons] at hi
          rw [List.getD_cons_succ]
          have hj := h3 j (by omega)
          rw [hj]
          by_cases hc : j = (b' :: tl').length - 1
          · rw [if_pos hc,
              if_pos (by simp only [List.length_cons] at hc ⊢; omega)]
          · rw [if_neg hc,
              if_neg (by simp only [List.length_cons] at hc ⊢; omega)]

theorem readBits_split (d : List Nat) (off w1 w2 : Nat) :
    readBits d off (w1 + w2) =
      readBits d off w1 * 2 ^ w2 + readBits d (off + w1) w2 := by
  induction w2 with
  | zero => simp [readBits]
  | succ w ih =>
    rw [show w1 + (w + 1) = (w1 + w) + 1 from rfl]
    rw [show readBits d off ((w1 + w) + 1) =
        readBits d off (w1 + w) * 2 + bitAt d (off + (w1 + w)) from rfl]
    rw [show readBits d (off + w1) (w + 1) =
        readBits d (off + w1) w * 2 + bitAt d ((off + w1) + w) from rfl]
    rw [ih]
    rw [show off + (w1 + w) = (off + w1) + w by omega]
    ring

theorem readBits_within (d : List Nat) (k a w : Nat) (hw : a + w ≤ 8) :
    readBits d (8 * k + a) w = d.getD k 0 / 2 ^ (8 - a - w) % 2 ^ w := by
  induction w with
  | zero => simp [readBits, Nat.mod_one]
  | succ w ih =>
    rw [show readBits d (8 * k + a) (w + 1) =
        readBits d (8 * k + a) w * 2 + bitAt d ((8 * k + a) + w) from rfl]
    rw [ih (by omega)]
    unfold bitAt
    rw [show ((8 * k + a) + w) / 8 = k by omega]
    rw [show ((8 * k + a) + w) % 8 = a + w by omega]
    have hm : 8 - a - w = (8 - a - (w + 1)) + 1 := by omega
    have h7 : 7 - (a + w) = 8 - a - (w + 1) := by omega
    rw [hm, h7]
    set m := 8 - a - (w + 1) with hmdef
    set b := d.getD k 0 with hbdef
    have hdiv : b / 2 ^ (m + 1) = b / 2 ^ m / 2 := by
      rw [Nat.div_div_eq_div_mul, pow_succ]
    rw [hdiv]
    set x := b / 2 ^ m with hxdef
    have hmul : x % (2 * 2 ^ w) = x % 2 + 2 * (x / 2 % 2 ^ w) := Nat.mod_mul
    have hp : (2 : Nat) ^ (w + 1) = 2 * 2 ^ w := by rw [pow_succ]; ring
    rw [hp, hmul]
    ring

set_option maxHeartbeats 1000000 in
theorem getStreamInfoData_spec34 (b0 b1 b2 b3 b4 b5 b6 b7 b8 b9 b10 b11 b12
    b13 b14 b15 b16 b17 b18 b19 b20 b21 b22 b23 b24 b25 b26 b27 b28 b29 b30
    b31 b32 b33 : Nat) (rest : List Nat)
    (h : ∀ x ∈ (b0 :: b1 :: b2 :: b3 :: b4 :: b5 :: b6 :: b7 :: b8 ::
      b9 :: b10 :: b11 :: b12 :: b13 :: b14 :: b15 :: b16 :: b17 :: b18 ::
      b19 :: b20 :: b21 :: b22 :: b23 :: b24 :: b25 :: b26 :: b27 :: b28 ::
      b29 :: b30 :: b31 :: b32 :: b33 :: rest), x < 256) :
    getStreamInfoData (b0 :: b1 :: b2 :: b3 :: b4 :: b5 :: b6 :: b7 :: b8 ::
      b9 :: b10 :: b11 :: b12 :: b13 :: b14 :: b15 :: b16 :: b17 :: b18 ::
      b19 :: b20 :: b21 :: b22 :: b23 :: b24 :: b25 :: b26 :: b27 :: b28 ::
      b29 :: b30 :: b31 :: b32 :: b33 :: rest) =
    .ok (specStreamInfo (b0 :: b1 :: b2 :: b3 :: b4 :: b5 :: b6 :: b7 :: b8 ::
      b9 :: b10 :: b11 :: b12 :: b13 :: b14 :: b15 :: b16 :: b17 :: b18 ::
      b19 :: b20 :: b21 :: b22 :: b23 :: b24 :: b25 :: b26 :: b27 :: b28 ::
      b29 :: b30 :: b31 :: b32 :: b33 :: rest)) := by
  have e0 : b0 < 256 := h _ (by simp)
  have e1 : b1 < 256 := h _ (by simp)
  have e2 : b2 < 256 := h _ (by simp)
  have e3 : b3 < 256 := h _ (by simp)
  have e4 : b4 < 256 := h _ (by simp)
  have e5 : b5 < 256 := h _ (by simp)
  have e6 : b6 < 256 := h _ (by simp)
  have e7 : b7 < 256 := h _ (by simp)
  have e8 : b8 < 256 := h _ (by simp)
  have e9 : b9 < 256 := h _ (by simp)
  have e10 : b10 < 256 := h _ (by simp)
  have e11 : b11 < 256 := h _ (by simp)
  have e12 : b12 < 256 := h _ (by simp)
  have e13 : b13 < 256 := h _ (by simp)
  have e14 : b14 < 256 := h _ (by simp)
  have e15 : b15 < 256 := h _ (by simp)
  have e16 : b16 < 256 := h _ (by simp)
  have e17 : b17 < 256 := h _ (by simp)
  set d : List Nat := b0 :: b1 :: b2 :: b3 :: b4 :: b5 :: b6 :: b7 :: b8 ::
      b9 :: b10 :: b11 :: b12 :: b13 :: b14 :: b15 :: b16 :: b17 :: b18 ::
      b19 :: b20 :: b21 :: b22 :: b23 :: b24 :: b25 :: b26 :: b27 :: b28 ::
      b29 :: b30 :: b31 :: b32 :: b33 :: rest with hd
  -- single bytes as 8-bit groups
  have hB0 : readBits d 0 8 = b0 % 256 := by
    simpa [hd] using readBits_within d 0 0 8 (by omega)
  have hB1 : readBits d 8 8 = b1 % 256 := by
    simpa [hd] using readBits_within d 1 0 8 (by omega)
  have hB2 : readBits d 16 8 = b2 % 256 := by
    simpa [hd] using readBits_within d 2 0 8 (by omega)
  have hB3 : readBits d 24 8 = b3 % 256 := by
    simpa [hd] using readBits_within d 3 0 8 (by omega)
  have hB4 : readBits d 32 8 = b4 % 256 := by
    simpa [hd] using readBits_within d 4 0 8 (by omega)
  have hB5 : readBits d 40 8 = b5 % 256 := by
    simpa [hd] using readBits_within d 5 0 8 (by omega)
  have hB6 : readBits d 48 8 = b6 % 256 := by
    simpa [hd] using readBits_within d 6 0 8 (by omega)
  have hB7 : readBits d 56 8 = b7 % 256 := by
    simpa [hd] using readBits_within d 7 0 8 (by omega)
  have hB8 : readBits d 64 8 = b8 % 256 := by
    simpa [hd] using readBits_within d 8 0 8 (by omega)
  have hB9 : readBits d 72 8 = b9 % 256 := by
    simpa [hd] using readBits_within d 9 0 8 (by omega)
  have hB10 : readBits d 80 8 = b10 % 256 := by
    simpa [hd] using readBits_within d 10 0 8 (by omega)
  have hB11 : readBits d 88 8 = b11 % 256 := by
    simpa [hd] using readBits_within d 11 0 8 (by omega)
  have hB14 : readBits d 112 8 = b14 % 256 := by
    simpa [hd] using readBits_within d 14 0 8 (by omega)
  have hB15 : readBits d 120 8 = b15 % 256 := by
    simpa [hd] using readBits_within d 15 0 8 (by omega)
  have hB16 : readBits d 128 8 = b16 % 256 := by
    simpa [hd] using readBits_within d 16 0 8 (by omega)
  have hB17 : readBits d 136 8 = b17 % 256 := by
    simpa [hd] using readBits_within d 17 0 8 (by omega)
  -- sub-byte groups
  have hN96 : readBits d 96 4 = b12 / 16 % 16 := by
    simpa [hd] using readBits_within d 12 0 4 (by omega)
  have hN100 : readBits d 100 3 = b12 / 2 % 8 := by
    simpa [hd] using readBits_within d 12 4 3 (by omega)
  have hN103 : readBits d 103 1 = b12 % 2 := by
    simpa [hd] using readBits_within d 12 7 1 (by omega)
  have hN104 : readBits d 104 4 = b13 / 16 % 16 := by
    simpa [hd] using readBits_within d 13 0 4 (by omega)
  have hN108 : readBits d 108 4 = b13 % 16 := by
    simpa [hd] using readBits_within d 13 4 4 (by omega)
  -- group splits
  have hS0 : readBits d 0 16 = readBits d 0 8 * 256 + readBits d 8 8 := by
    simpa using readBits_split d 0 8 8
  have hS16 : readBits d 16 16 = readBits d 16 8 * 256 + readBits d 24 8 := by
    simpa using readBits_split d 16 8 8
  have hS32 : readBits d 32 24 = readBits d 32 8 * 65536 + readBits d 40 16 := by
    simpa using readBits_split d 32 8 16
  have hS40 : readBits d 40 16 = readBits d 40 8 * 256 + readBits d 48 8 := by
    simpa using readBits_split d 40 8 8
  have hS56 : readBits d 56 24 = readBits d 56 8 * 65536 + readBits d 64 16 := by
    simpa using readBits_split d 56 8 16
  have hS64 : readBits d 64 16 = readBits d 64 8 * 256 + readBits d 72 8 := by
    simpa using readBits_split d 64 8 8
  have hS80 : readBits d 80 20 = readBits d 80 16 * 16 + readBits d 96 4 := by
    simpa using readBits_split d 80 16 4
  have hS80b : readBits d 80 16 = readBits d 80 8 * 256 + readBits d 88 8 := by
    simpa using readBits_split d 80 8 8
  have hS103 : readBits d 103 5 = readBits d 103 1 * 16 + readBits d 104 4 := by
    simpa using readBits_split d 103 1 4
  have hS108 : readBits d 108 36 =
      readBits d 108 4 * 4294967296 + readBits d 112 32 := by
    simpa using readBits_split d 108 4 32
  have hS112 : readBits d 112 32 =
      readBits d 112 8 * 16777216 + readBits d 120 24 := by
    simpa using readBits_split d 112 8 24
  have hS120 : readBits d 120 24 =
      readBits d 120 8 * 65536 + readBits d 128 16 := by
    simpa using readBits_split d 120 8 16
  have hS128 : readBits d 128 16 = readBits d 128 8 * 256 + readBits d 136 8 := by
    simpa using readBits_split d 128 8 8
  -- evaluate the Go-side decode on the destructured payload
  rw [hd]
  simp only [getStreamInfoData, brReadFull, brRead, brBack1, takeUpTo,
    overwrite, List.drop_succ_cons, List.drop_nil, List.drop_zero,
    List.length_cons, List.length_nil, List.cons_append, List.nil_append,
    List.reverse_cons, List.reverse_nil, List.append_nil, Nat.reduceAdd,
    List.replicate, List.drop, specStreamInfo, Except.ok.injEq,
    StreamInfoBlock.mk.injEq, beVal, List.foldl, List.take_succ_cons,
    List.take_zero]
  rw [← hd]
  refine ⟨?_, ?_, ?_, ?_, ?_, ?_, ?_, ?_, ?_⟩
  · rw [hS0, hB0, hB1]; omega
  · rw [hS16, hB2, hB3]; omega
  · rw [hS32, hS40, hB4, hB5, hB6]; omega
  · rw [hS56, hS64, hB7, hB8, hB9]; omega
  · rw [hS80, hS80b, hN96, hB10, hB11]; omega
  · rw [hN100]; omega
  · rw [hS103, hN103, hN104]; omega
  · rw [hS108, hS112, hS120, hS128, hN108, hB14, hB15, hB16, hB17]; omega
  · trivial



theorem parseMetadataBlock_reconstruct {s : List Nat} {b : MetaDataBlock}
    {fl : Bool} {s' : List Nat} (hb : ∀ x ∈ s, x < 256)
    (h : parseMetadataBlock s = .ok (b, fl, s')) :
    b.type < 128 ∧ b.data.length ≤ 2 ^ 24 - 1 ∧
    marshalBytes b fl ++ s' = s := by
  rcases s with _ | ⟨c0, s⟩
  · exact absurd h (by simp [parseMetadataBlock, readFull])
  rcases s with _ | ⟨c1, s⟩
  · exact absurd h (by simp [parseMetadataBlock, readFull])
  rcases s with _ | ⟨c2, s⟩
  · exact absurd h (by simp [parseMetadataBlock, readFull])
  rcases s with _ | ⟨c3, t⟩
  · exact absurd h (by simp [parseMetadataBlock, readFull])
  have e0 : c0 < 256 := hb _ (by simp)
  have e1 : c1 < 256 := hb _ (by simp)
  have e2 : c2 < 256 := hb _ (by simp)
  have e3 : c3 < 256 := hb _ (by simp)
  unfold parseMetadataBlock readFull at h
  rw [if_pos (by simp only [List.length_cons]; omega)] at h
  simp only [List.take_succ_cons, List.take_zero, List.drop_succ_cons,
    List.drop_zero, List.getD_cons_zero, List.getD_cons_succ] at h
  have hLval : beVal [c0, c1, c2, c3] % 2 ^ 24 =
      c1 * 65536 + c2 * 256 + c3 := by
    simp only [beVal, List.foldl]
    omega
  by_cases hlen : beVal [c0, c1, c2, c3] % 2 ^ 24 ≤ t.length
  · rw [if_pos hlen] at h
    cases h
    have hTL : (t.take (beVal [c0, c1, c2, c3] % 2 ^ 24)).length =
        beVal [c0, c1, c2, c3] % 2 ^ 24 := by
      simp only [List.length_take]
      omega
    refine ⟨by show c0 % 128 < 128; omega,
      by show (t.take (beVal [c0, c1, c2, c3] % 2 ^ 24)).length ≤ 2 ^ 24 - 1
         rw [hTL]; omega, ?_⟩
    have hbyte0 : (cond (decide (c0 / 128 ≠ 0)) 1 0) * 128 + c0 % 128 =
        c0 := by
      by_cases hc : c0 / 128 = 0
      · have hd : decide (c0 / 128 ≠ 0) = false := by simp [hc]
        rw [hd, cond_false]
        omega
      · have hd : decide (c0 / 128 ≠ 0) = true := by simp [hc]
        rw [hd, cond_true]
        omega
    simp only [marshalBytes, hTL, List.cons_append]
    rw [List.take_append_drop, hbyte0]
    rw [show beVal [c0, c1, c2, c3] % 2 ^ 24 / 2 ^ 16 % 256 = c1 by omega]
    rw [show beVal [c0, c1, c2, c3] % 2 ^ 24 / 2 ^ 8 % 256 = c2 by omega]
    rw [show beVal [c0, c1, c2, c3] % 2 ^ 24 % 256 = c3 by omega]
  · rw [if_neg hlen] at h
    exact absurd h (by simp)

theorem readMetadataBlocksAux_reconstruct :
    ∀ fuel s blocks rest, (∀ x ∈ s, x < 256) →
      readMetadataBlocksAux fuel s = .ok (blocks, rest) →
      blocks ≠ [] ∧
        ∃ body, marshalAll blocks = .ok body ∧ body ++ rest = s := by
  intro fuel
  induction fuel with
  | zero =>
    intro s blocks rest _ h
    exact absurd h (by simp [readMetadataBlocksAux])
  | succ f ih =>
    intro s blocks rest hb h
    unfold readMetadataBlocksAux at h
    split at h
    · exact absurd h (by simp)
    · rename_i b s' hpb
      cases h
      obtain ⟨hty, hdl, hsplit⟩ := parseMetadataBlock_reconstruct hb hpb
      refine ⟨by simp, marshalBytes b true, ?_, hsplit⟩
      show marshalOne b true = .ok (marshalBytes b true)
      exact marshalOne_eq hty hdl true
    · rename_i b s' hpb
      split at h
      · exact absurd h (by simp)
      · rename_i bs s'' haux
        obtain ⟨hty, hdl, hsplit⟩ := parseMetadataBlock_reconstruct hb hpb
        have hb' : ∀ x ∈ s', x < 256 := by
          intro x hx
          exact hb x (hsplit ▸ List.mem_append_right _ hx)
        obtain ⟨hne, body, hma, hbody⟩ := ih s' bs s'' hb' haux
        cases h
        refine ⟨by simp, marshalBytes b false ++ body, ?_, ?_⟩
        · cases bs with
          | nil => exact absurd rfl hne
          | cons b2 tl2 =>
            have hm1 : marshalOne b false = .ok (marshalBytes b false) :=
              marshalOne_eq hty hdl false
            simp [marshalAll, hm1, hma]
        · rw [List.append_assoc, hbody, hsplit]

theorem readFLACHead_reconstruct {s s' : List Nat}
    (h : readFLACHead s = .ok s') : s = magicFLAC ++ s' := by
  unfold readFLACHead readFull at h
  split at h
  · exact absurd h (by simp)
  · rename_i m t heq
    split at h
    · rename_i hm
      cases h
      split at heq
      · cases heq
        rw [← hm]
        exact (List.take_append_drop 4 s).symm
      · exact absurd heq (by simp)
    · exact absurd h (by simp)

theorem checkFLACStream_reconstruct {s fr : List Nat}
    (h : checkFLACStream s = .ok fr) : fr = s := by
  unfold checkFLACStream readFull at h
  split at h
  · exact absurd h (by simp)
  · rename_i two rest heq
    split at h
    · cases h
      split at heq
      · cases heq
        exact List.take_append_drop 2 s
      · exact absurd heq (by simp)
    · exact absurd h (by simp)

theorem getD_append_lt (l1 l2 : List Nat) (i : Nat) (h : i < l1.length) :
    (l1 ++ l2).getD i 0 = l1.getD i 0 := by
  rw [List.getD_eq_getElem?_getD, List.getD_eq_getElem?_getD,
    List.getElem?_append, if_pos h]

theorem getD_append_ge (l1 l2 : List Nat) (i : Nat) (h : l1.length ≤ i) :
    (l1 ++ l2).getD i 0 = l2.getD (i - l1.length) 0 := by
  rw [List.getD_eq_getElem?_getD, List.getD_eq_getElem?_getD,
    List.getElem?_append, if_neg (by omega)]

theorem getD_drop (l : List Nat) (n m : Nat) :
    (l.drop n).getD m 0 = l.getD (n + m) 0 := by
  rw [List.getD_eq_getElem?_getD, List.getD_eq_getElem?_getD,
    List.getElem?_drop]

theorem getD_take (l : List Nat) (n m : Nat) (h : m < n) :
    (l.take n).getD m 0 = l.getD m 0 := by
  rw [List.getD_eq_getElem?_getD, List.getD_eq_getElem?_getD,
    List.getElem?_take, if_pos h]

theorem getD_ge_length (l : List Nat) (i : Nat) (h : l.length ≤ i) :
    l.getD i 0 = 0 := by
  rw [List.getD_eq_getElem?_getD, List.getElem?_eq_none h]
  rfl

theorem list_ext_getD {a b : List Nat} (hl : a.length = b.length)
    (h : ∀ i, i < a.length → a.getD i 0 = b.getD i 0) : a = b := by
  refine List.ext_getElem hl ?_
  intro i h1 h2
  have hg := h i h1
  rwa [List.getD_eq_getElem?_getD, List.getD_eq_getElem?_getD,
    List.getElem?_eq_getElem h1, List.getElem?_eq_getElem h2,
    Option.getD_some, Option.getD_some] at hg

theorem writeAt_inbounds {c bs : List Nat} {pos : Nat}
    (hpos : pos ≤ c.length) :
    writeAt c pos bs = c.take pos ++ bs ++ c.drop (pos + bs.length) := by
  unfold writeAt
  rw [show pos - c.length = 0 by omega]
  simp

theorem writeAt_length {c bs : List Nat} {pos : Nat}
    (h : pos + bs.length ≤ c.length) :
    (writeAt c pos bs).length = c.length := by
  rw [writeAt_inbounds (by omega)]
  simp only [List.length_append, List.length_take, List.length_drop]
  omega

theorem writeAt_getD_lt {c bs : List Nat} {pos p : Nat}
    (hpos : pos ≤ c.length) (h : p < pos) :
    (writeAt c pos bs).getD p 0 = c.getD p 0 := by
  rw [writeAt_inbounds hpos, List.append_assoc]
  rw [getD_append_lt _ _ _ (by simp only [List.length_take]; omega)]
  rw [getD_take _ _ _ h]

theorem writeAt_getD_in {c bs : List Nat} {pos p : Nat}
    (hpos : pos ≤ c.length) (h1 : pos ≤ p) (h2 : p < pos + bs.length) :
    (writeAt c pos bs).getD p 0 = bs.getD (p - pos) 0 := by
  rw [writeAt_inbounds hpos, List.append_assoc]
  rw [getD_append_ge _ _ _ (by simp only [List.length_take]; omega)]
  rw [show p - (c.take pos).length = p - pos by
    simp only [List.length_take]; omega]
  rw [getD_append_lt _ _ _ (by omega)]

theorem writeAt_getD_ge {c bs : List Nat} {pos p : Nat}
    (hpos : pos ≤ c.length) (h : pos + bs.length ≤ p) :
    (writeAt c pos bs).getD p 0 = c.getD p 0 := by
  rw [writeAt_inbounds hpos, List.append_assoc]
  rw [getD_append_ge _ _ _ (by simp only [List.length_take]; omega)]
  rw [getD_append_ge _ _ _ (by simp only [List.length_take]; omega)]
  rw [getD_drop]
  congr 1
  simp only [List.length_take]
  omega

theorem writeAt_zero (c bs : List Nat) :
    writeAt c 0 bs = bs ++ c.drop bs.length := by
  rw [writeAt_inbounds (by omega)]
  simp

theorem readAt_ok {c : List Nat} {pos n : Nat} (h : pos + n ≤ c.length) :
    readAt c pos n = .ok ((c.drop pos).take n) := by
  unfold readAt
  rw [if_pos h]


theorem shiftFwdAux_spec (orig audio δ : Nat) (s : List Nat) (hδ : 0 < δ)
    (htot : orig + audio = s.length) :
    ∀ fuel i c, audio - i < fuel →
      c.length = s.length + δ →
      (∀ p, p < orig + (audio - i) → c.getD p 0 = s.getD p 0) →
      (∀ k, audio - i ≤ k → k < audio →
        c.getD (orig + δ + k) 0 = s.getD (orig + k) 0) →
      ∃ out, shiftFwdAux orig audio δ fuel i c = .ok out ∧
        out.length = s.length + δ ∧
        ∀ k, k < audio → out.getD (orig + δ + k) 0 = s.getD (orig + k) 0 := by
  intro fuel
  induction fuel with
  | zero =>
    intro i c hf
    exact absurd hf (by omega)
  | succ f ih =>
    intro i c hf hlen hlow hdone
    have hbuf : 0 < bufferSize := by decide
    rw [shiftFwdAux_succ]
    by_cases hi : i < audio
    · rw [if_pos hi]
      by_cases hcl : (audio : Int) - i - bufferSize < 0
      · simp only [if_pos hcl]
        have hclN : audio < i + bufferSize := by omega
        rw [readAt_ok (by omega)]
        have hblen : ((c.drop orig).take (audio - i)).length = audio - i := by
          simp only [List.length_take, List.length_drop]
          omega
        have hbufval : ∀ j, j < audio - i →
            ((c.drop orig).take (audio - i)).getD j 0 =
              s.getD (orig + j) 0 := by
          intro j hj
          rw [getD_take _ _ _ hj, getD_drop]
          exact hlow (orig + j) (by omega)
        have hlen' : (writeAt c (orig + δ)
            ((c.drop orig).take (audio - i))).length = s.length + δ := by
          rw [writeAt_length (by rw [hblen]; omega)]
          exact hlen
        have hlow' : ∀ p, p < orig + (audio - (i + bufferSize)) →
            (writeAt c (orig + δ)
              ((c.drop orig).take (audio - i))).getD p 0 = s.getD p 0 := by
          intro p hp
          rw [writeAt_getD_lt (by omega) (by omega)]
          exact hlow p (by omega)
        have hdone' : ∀ k, audio - (i + bufferSize) ≤ k → k < audio →
            (writeAt c (orig + δ)
              ((c.drop orig).take (audio - i))).getD (orig + δ + k) 0 =
              s.getD (orig + k) 0 := by
          intro k _ hk2
          by_cases hks : k < audio - i
          · rw [writeAt_getD_in (by omega) (by omega)
              (by rw [hblen]; omega)]
            rw [show orig + δ + k - (orig + δ) = k by omega]
            exact hbufval k hks
          · rw [writeAt_getD_ge (by omega) (by rw [hblen]; omega)]
            exact hdone k (by omega) hk2
        obtain ⟨out, ho, holen, hodone⟩ := ih (i + bufferSize)
          (writeAt c (orig + δ) ((c.drop orig).take (audio - i)))
          (by omega) hlen' hlow' hdone'
        exact ⟨out, ho, holen, hodone⟩
      · simp only [if_neg hcl]
        have hclN : bufferSize ≤ audio - i := by omega
        rw [readAt_ok (by omega)]
        have hblen : ((c.drop (orig + (audio - i - bufferSize))).take
            bufferSize).length = bufferSize := by
          simp only [List.length_take, List.length_drop]
          omega
        have hbufval : ∀ j, j < bufferSize →
            ((c.drop (orig + (audio - i - bufferSize))).take
              bufferSize).getD j 0 =
              s.getD (orig + (audio - i - bufferSize) + j) 0 := by
          intro j hj
          rw [getD_take _ _ _ hj, getD_drop]
          exact hlow (orig + (audio - i - bufferSize) + j) (by omega)
        have hlen' : (writeAt c (orig + (audio - i - bufferSize) + δ)
            ((c.drop (orig + (audio - i - bufferSize))).take
              bufferSize)).length = s.length + δ := by
          rw [writeAt_length (by rw [hblen]; omega)]
          exact hlen
        have hlow' : ∀ p, p < orig + (audio - (i + bufferSize)) →
            (writeAt c (orig + (audio - i - bufferSize) + δ)
              ((c.drop (orig + (audio - i - bufferSize))).take
                bufferSize)).getD p 0 = s.getD p 0 := by
          intro p hp
          rw [writeAt_getD_lt (by omega) (by omega)]
          exact hlow p (by omega)
        have hdone' : ∀ k, audio - (i + bufferSize) ≤ k → k < audio →
            (writeAt c (orig + (audio - i - bufferSize) + δ)
              ((c.drop (orig + (audio - i - bufferSize))).take
                bufferSize)).getD (orig + δ + k) 0 =
              s.getD (orig + k) 0 := by
          intro k hk1 hk2
          by_cases hks : k < audio - i
          · rw [writeAt_getD_in (by omega) (by omega)
              (by rw [hblen]; omega)]
            rw [show orig + δ + k -
                (orig + (audio - i - bufferSize) + δ) =
                k - (audio - i - bufferSize) by omega]
            rw [hbufval (k - (audio - i - bufferSize)) (by omega)]
            rw [show orig + (audio - i - bufferSize) +
                (k - (audio - i - bufferSize)) = orig + k by omega]
          · rw [writeAt_getD_ge (by omega) (by rw [hblen]; omega)]
            exact hdone k (by omega) hk2
        obtain ⟨out, ho, holen, hodone⟩ := ih (i + bufferSize)
          (writeAt c (orig + (audio - i - bufferSize) + δ)
            ((c.drop (orig + (audio - i - bufferSize))).take bufferSize))
          (by omega) hlen' hlow' hdone'
        exact ⟨out, ho, holen, hodone⟩
    · rw [if_neg hi]
      exact ⟨c, rfl, hlen, fun k hk => hdone k (by omega) hk⟩


theorem shiftBwdAux_spec (orig audio negδ : Nat) (s : List Nat)
    (hδ : 0 < negδ) (hδ2 : negδ ≤ orig) (htot : orig + audio = s.length) :
    ∀ fuel i c, audio - i < fuel →
      c.length = s.length →
      (∀ p, orig + i ≤ p → p < s.length → c.getD p 0 = s.getD p 0) →
      (∀ k, k < audio → k < i →
        c.getD (orig - negδ + k) 0 = s.getD (orig + k) 0) →
      ∃ out, shiftBwdAux orig audio negδ s.length fuel i c = .ok out ∧
        out.length = s.length ∧
        ∀ k, k < audio →
          out.getD (orig - negδ + k) 0 = s.getD (orig + k) 0 := by
  intro fuel
  induction fuel with
  | zero =>
    intro i c hf
    exact absurd hf (by omega)
  | succ f ih =>
    intro i c hf hlen huntouched hmoved
    have hbuf : 0 < bufferSize := by decide
    rw [shiftBwdAux_succ]
    by_cases hi : i < audio
    · rw [if_pos hi]
      by_cases hcl : s.length < orig + i + bufferSize
      · simp only [if_pos hcl]
        rw [if_neg (by omega)]
        rw [readAt_ok (by omega)]
        have hblen : ((c.drop (orig + i)).take
            (s.length - (orig + i))).length = s.length - (orig + i) := by
          simp only [List.length_take, List.length_drop]
          omega
        have hbufval : ∀ j, j < s.length - (orig + i) →
            ((c.drop (orig + i)).take (s.length - (orig + i))).getD j 0 =
              s.getD (orig + i + j) 0 := by
          intro j hj
          rw [getD_take _ _ _ hj, getD_drop]
          exact huntouched (orig + i + j) (by omega) (by omega)
        have hlen' : (writeAt c (orig + i - negδ)
            ((c.drop (orig + i)).take
              (s.length - (orig + i)))).length = s.length := by
          rw [writeAt_length (by rw [hblen]; omega)]
          exact hlen
        have hun' : ∀ p, orig + (i + bufferSize) ≤ p → p < s.length →
            (writeAt c (orig + i - negδ)
              ((c.drop (orig + i)).take
                (s.length - (orig + i)))).getD p 0 = s.getD p 0 := by
          intro p hp1 hp2
          rw [writeAt_getD_ge (by omega) (by rw [hblen]; omega)]
          exact huntouched p (by omega) hp2
        have hmv' : ∀ k, k < audio → k < i + bufferSize →
            (writeAt c (orig + i - negδ)
              ((c.drop (orig + i)).take
                (s.length - (orig + i)))).getD (orig - negδ + k) 0 =
              s.getD (orig + k) 0 := by
          intro k hk1 _
          by_cases hki : k < i
          · rw [writeAt_getD_lt (by omega) (by omega)]
            exact hmoved k hk1 hki
          · rw [writeAt_getD_in (by omega) (by omega)
              (by rw [hblen]; omega)]
            rw [show orig - negδ + k - (orig + i - negδ) = k - i by omega]
            rw [hbufval (k - i) (by omega)]
            rw [show orig + i + (k - i) = orig + k by omega]
        obtain ⟨out, ho, holen, homv⟩ := ih (i + bufferSize)
          (writeAt c (orig + i - negδ)
            ((c.drop (orig + i)).take (s.length - (orig + i))))
          (by omega) hlen' hun' hmv'
        exact ⟨out, ho, holen, homv⟩
      · simp only [if_neg hcl]
        rw [if_neg (by omega)]
        rw [readAt_ok (by omega)]
        have hblen : ((c.drop (orig + i)).take bufferSize).length =
            bufferSize := by
          simp only [List.length_take, List.length_drop]
          omega
        have hbufval : ∀ j, j < bufferSize →
            ((c.drop (orig + i)).take bufferSize).getD j 0 =
              s.getD (orig + i + j) 0 := by
          intro j hj
          rw [getD_take _ _ _ hj, getD_drop]
          exact huntouched (orig + i + j) (by omega) (by omega)
        have hlen' : (writeAt c (orig + i - negδ)
            ((c.drop (orig + i)).take bufferSize)).length = s.length := by
          rw [writeAt_length (by rw [hblen]; omega)]
          exact hlen
        have hun' : ∀ p, orig + (i + bufferSize) ≤ p → p < s.length →
            (writeAt c (orig + i - negδ)
              ((c.drop (orig + i)).take bufferSize)).getD p 0 =
              s.getD p 0 := by
          intro p hp1 hp2
          rw [writeAt_getD_ge (by omega) (by rw [hblen]; omega)]
          exact huntouched p (by omega) hp2
        have hmv' : ∀ k, k < audio → k < i + bufferSize →
            (writeAt c (orig + i - negδ)
              ((c.drop (orig + i)).take bufferSize)).getD
                (orig - negδ + k) 0 = s.getD (orig + k) 0 := by
          intro k hk1 hk2
          by_cases hki : k < i
          · rw [writeAt_getD_lt (by omega) (by omega)]
            exact hmoved k hk1 hki
          · rw [writeAt_getD_in (by omega) (by omega)
              (by rw [hblen]; omega)]
            rw [show orig - negδ + k - (orig + i - negδ) = k - i by omega]
            rw [hbufval (k - i) (by omega)]
            rw [show orig + i + (k - i) = orig + k by omega]
        obtain ⟨out, ho, holen, homv⟩ := ih (i + bufferSize)
          (writeAt c (orig + i - negδ)
            ((c.drop (orig + i)).take bufferSize))
          (by omega) hlen' hun' hmv'
        exact ⟨out, ho, holen, homv⟩
    · rw [if_neg hi]
      exact ⟨c, rfl, hlen, fun k hk => hmoved k hk (by omega)⟩


theorem headerLength_le {s : List Nat} {n : Nat}
    (h : headerLength s = .ok n) : n ≤ s.length := by
  unfold headerLength at h
  split at h
  · exact absurd h (by simp)
  · cases h
    omega

/-! ## Claim theorems -/

/-- **C7.** `checkFLACStream` succeeds iff the two bytes at the head of the
remaining source are `0xFF` and a byte whose top 6 bits are `111110`
(`b1 >> 2 = 0x3E`), failing with `ErrorNoSyncCode` on any other pair; on
success the returned `PrefixReader` re-emits exactly those two bytes
followed by the rest of the stream, so validation consumes nothing from
the caller's perspective. -/
theorem C7_checkFLACStream_peek (b0 b1 : Nat) (rest : List Nat) :
    (checkFLACStream (b0 :: b1 :: rest) = .ok (b0 :: b1 :: rest) ↔
      b0 = 255 ∧ b1 >>> 2 = 62) ∧
    (¬(b0 = 255 ∧ b1 >>> 2 = 62) →
      checkFLACStream (b0 :: b1 :: rest) = .error .noSyncCode) := by
  have hs : b1 >>> 2 = b1 / 4 := by
    simp [Nat.shiftRight_eq_div_pow]
  have he : checkFLACStream (b0 :: b1 :: rest) =
      if b0 = 255 ∧ b1 / 4 = 62 then .ok (b0 :: b1 :: rest)
      else .error .noSyncCode := by
    unfold checkFLACStream readFull
    rw [if_pos (by simp only [List.length_cons]; omega)]
    simp
  rw [hs, he]
  by_cases hc : b0 = 255 ∧ b1 / 4 = 62
  · simp [hc]
  · simp [hc]

/-- Witness for C7 at a concrete non-sync pair. -/
theorem C7_witness :
    ¬((0 : Nat) = 255 ∧ (0 : Nat) >>> 2 = 62) ∧
    checkFLACStream [0, 0, 1] = .error .noSyncCode :=
  ⟨by decide, (C7_checkFLACStream_peek 0 0 [1]).2 (by decide)⟩

/-- **C9.** `marshalOne` fails with `SizeOverflow` exactly when the payload
exceeds `2^24 − 1` bytes; within that limit it emits a first byte equal to
`(isLastFlag<<7)|type`, three bytes recombining big-endian to the payload
length, and then the payload verbatim. -/
theorem C9_marshalOne (b : MetaDataBlock) (last : Bool) :
    (2 ^ 24 - 1 < b.data.length → marshalOne b last = .error .sizeOverflow) ∧
    (b.data.length ≤ 2 ^ 24 - 1 → b.type < 128 →
      marshalOne b last = .ok (marshalBytes b last) ∧
      (marshalBytes b last).getD 0 0 = (cond last 1 0) * 128 + b.type ∧
      beVal ((marshalBytes b last).drop 1 |>.take 3) = b.data.length ∧
      (marshalBytes b last).drop 4 = b.data) := by
  constructor
  · intro hover
    unfold marshalOne
    rw [if_neg (by omega)]
  · intro hlen hty
    refine ⟨marshalOne_eq hty hlen last, rfl, ?_, rfl⟩
    show beVal [b.data.length / 2 ^ 16 % 256, b.data.length / 2 ^ 8 % 256,
      b.data.length % 256] = b.data.length
    simp only [beVal, List.foldl]
    omega

/-- Witness for C9 at a concrete small block. -/
theorem C9_witness :
    ((⟨1, [7, 7]⟩ : MetaDataBlock).data.length ≤ 2 ^ 24 - 1 ∧
      (⟨1, [7, 7]⟩ : MetaDataBlock).type < 128) ∧
    marshalOne ⟨1, [7, 7]⟩ true = .ok (marshalBytes ⟨1, [7, 7]⟩ true) :=
  ⟨⟨by decide, by decide⟩,
    ((C9_marshalOne ⟨1, [7, 7]⟩ true).2 (by decide) (by decide)).1⟩

/-- **C6.** For every `File` with `N ≥ 1` metadata blocks (of 7-bit type
and marshallable size), `WriteTo` emits the magic followed by one byte
segment per block, and the last-flag bit (bit 7 of a segment's first byte)
is set on exactly the segment of index `N − 1` — positional, hence
independent of any last-flags present in the source the blocks were parsed
from; the frame bytes, if any, follow the segments. -/
theorem C6_writeTo_lastFlag (f : File) (hne : f.meta ≠ [])
    (hty : ∀ b ∈ f.meta, b.type < 128)
    (hlen : ∀ b ∈ f.meta, b.data.length ≤ 2 ^ 24 - 1) :
    ∃ segs : List (List Nat),
      segs.length = f.meta.length ∧
      (∀ i, i < segs.length →
        (segs.getD i []).getD 0 0 / 128 =
          if i = f.meta.length - 1 then 1 else 0) ∧
      (f.frames = none → (writeTo f).1 = .ok (magicFLAC ++ segs.flatten)) ∧
      (∀ bs, f.frames = some (.bytesReader bs) →
        (writeTo f).1 = .ok (magicFLAC ++ segs.flatten ++ bs)) := by
  obtain ⟨segs, h1, h2, h3⟩ := marshalAll_flags f.meta hne hty hlen
  refine ⟨segs, h2, h3, ?_, ?_⟩
  · intro hf
    simp [writeTo, h1, hf]
  · intro bs hf
    simp [writeTo, h1, hf]

/-- Witness for C6 at the two-block example file. -/
theorem C6_witness :
    (exMeta ≠ [] ∧ (∀ b ∈ exMeta, b.type < 128) ∧
      (∀ b ∈ exMeta, b.data.length ≤ 2 ^ 24 - 1)) ∧
    ∃ segs : List (List Nat),
      segs.length = exMeta.length ∧
      (∀ i, i < segs.length →
        (segs.getD i []).getD 0 0 / 128 =
          if i = exMeta.length - 1 then 1 else 0) ∧
      ((File.mk exMeta none).frames = none →
        (writeTo ⟨exMeta, none⟩).1 = .ok (magicFLAC ++ segs.flatten)) ∧
      (∀ bs, (File.mk exMeta none).frames = some (.bytesReader bs) →
        (writeTo ⟨exMeta, none⟩).1 = .ok (magicFLAC ++ segs.flatten ++ bs)) :=
  ⟨⟨by decide, by decide, by decide⟩,
    C6_writeTo_lastFlag ⟨exMeta, none⟩ (by decide) (by decide) (by decide)⟩


/-- **C2.** For every `File` whose first metadata block has the stream-info
type and a payload of at least 34 byte values, `GetStreamInfo` succeeds and
returns exactly the decode prescribed by the spec's bit-cursor reading
(`specStreamInfo`): successive MSB-first big-endian groups of widths 16
(minBlockSize), 16 (maxBlockSize), 24 (minFrameSize), 24 (maxFrameSize),
20 (sampleRate), 3 plus one (channelCount), 5 plus one (bitDepth), 36
(totalSampleCount), then the 16 checksum bytes copied verbatim. -/
theorem C2_getStreamInfo_refines (d : List Nat) (tl : List MetaDataBlock)
    (fr : Option FrameReader) (hlen : 34 ≤ d.length)
    (hb : ∀ x ∈ d, x < 256) :
    getStreamInfo ⟨⟨StreamInfo, d⟩ :: tl, fr⟩ = .ok (specStreamInfo d) := by
  rcases d with _ | ⟨b0, d⟩
  · simp only [List.length_cons, List.length_nil] at hlen; omega
  rcases d with _ | ⟨b1, d⟩
  · simp only [List.length_cons, List.length_nil] at hlen; omega
  rcases d with _ | ⟨b2, d⟩
  · simp only [List.length_cons, List.length_nil] at hlen; omega
  rcases d with _ | ⟨b3, d⟩
  · simp only [List.length_cons, List.length_nil] at hlen; omega
  rcases d with _ | ⟨b4, d⟩
  · simp only [List.length_cons, List.length_nil] at hlen; omega
  rcases d with _ | ⟨b5, d⟩
  · simp only [List.length_cons, List.length_nil] at hlen; omega
  rcases d with _ | ⟨b6, d⟩
  · simp only [List.length_cons, List.length_nil] at hlen; omega
  rcases d with _ | ⟨b7, d⟩
  · simp only [List.length_cons, List.length_nil] at hlen; omega
  rcases d with _ | ⟨b8, d⟩
  · simp only [List.length_cons, List.length_nil] at hlen; omega
  rcases d with _ | ⟨b9, d⟩
  · simp only [List.length_cons, List.length_nil] at hlen; omega
  rcases d with _ | ⟨b10, d⟩
  · simp only [List.length_cons, List.length_nil] at hlen; omega
  rcases d with _ | ⟨b11, d⟩
  · simp only [List.length_cons, List.length_nil] at hlen; omega
  rcases d with _ | ⟨b12, d⟩
  · simp only [List.length_cons, List.length_nil] at hlen; omega
  rcases d with _ | ⟨b13, d⟩
  · simp only [List.length_cons, List.length_nil] at hlen; omega
  rcases d with _ | ⟨b14, d⟩
  · simp only [List.length_cons, List.length_nil] at hlen; omega
  rcases d with _ | ⟨b15, d⟩
  · simp only [List.length_cons, List.length_nil] at hlen; omega
  rcases d with _ | ⟨b16, d⟩
  · simp only [List.length_cons, List.length_nil] at hlen; omega
  rcases d with _ | ⟨b17, d⟩
  · simp only [List.length_cons, List.length_nil] at hlen; omega
  rcases d with _ | ⟨b18, d⟩
  · simp only [List.length_cons, List.length_nil] at hlen; omega
  rcases d with _ | ⟨b19, d⟩
  · simp only [List.length_cons, List.length_nil] at hlen; omega
  rcases d with _ | ⟨b20, d⟩
  · simp only [List.length_cons, List.length_nil] at hlen; omega
  rcases d with _ | ⟨b21, d⟩
  · simp only [List.length_cons, List.length_nil] at hlen; omega
  rcases d with _ | ⟨b22, d⟩
  · simp only [List.length_cons, List.length_nil] at hlen; omega
  rcases d with _ | ⟨b23, d⟩
  · simp only [List.length_cons, List.length_nil] at hlen; omega
  rcases d with _ | ⟨b24, d⟩
  · simp only [List.length_cons, List.length_nil] at hlen; omega
  rcases d with _ | ⟨b25, d⟩
  · simp only [List.length_cons, List.length_nil] at hlen; omega
  rcases d with _ | ⟨b26, d⟩
  · simp only [List.length_cons, List.length_nil] at hlen; omega
  rcases d with _ | ⟨b27, d⟩
  · simp only [List.length_cons, List.length_nil] at hlen; omega
  rcases d with _ | ⟨b28, d⟩
  · simp only [List.length_cons, List.length_nil] at hlen; omega
  rcases d with _ | ⟨b29, d⟩
  · simp only [List.length_cons, List.length_nil] at hlen; omega
  rcases d with _ | ⟨b30, d⟩
  · simp only [List.length_cons, List.length_nil] at hlen; omega
  rcases d with _ | ⟨b31, d⟩
  · simp only [List.length_cons, List.length_nil] at hlen; omega
  rcases d with _ | ⟨b32, d⟩
  · simp only [List.length_cons, List.length_nil] at hlen; omega
  rcases d with _ | ⟨b33, d⟩
  · simp only [List.length_cons, List.length_nil] at hlen; omega
  have hcore := getStreamInfoData_spec34 b0 b1 b2 b3 b4 b5 b6 b7 b8 b9 b10
    b11 b12 b13 b14 b15 b16 b17 b18 b19 b20 b21 b22 b23 b24 b25 b26 b27 b28
    b29 b30 b31 b32 b33 d hb
  simp [getStreamInfo, StreamInfo, hcore]

/-- Witness for C2 at the 34-byte example payload, also fixing the example
field values named by the claim. -/
theorem C2_witness :
    (34 ≤ exPayload.length ∧ ∀ x ∈ exPayload, x < 256) ∧
    getStreamInfo ⟨[⟨StreamInfo, exPayload⟩], none⟩ =
      .ok ⟨1152, 1152, 1650, 6130, 96000, 2, 24, 3828096,
        [229, 209, 0, 198, 63, 81, 136, 144, 12, 102, 182, 166, 160, 140,
          226, 235]⟩ :=
  ⟨⟨by decide, by decide⟩,
    (C2_getStreamInfo_refines exPayload [] none (by decide)
      (by decide)).trans (by decide)⟩

/-- **C5** (code evaluated at the failing input): `GetStreamInfo` on a
`File` whose metadata sequence is empty panics on the index expression
`c.Meta[0]` (index out of range) instead of returning `ErrorNoStreamInfo`
as the claim and the error's own documentation state; on a nonempty
sequence with a non-stream-info first block it does return the error. -/
theorem C5_getStreamInfo_empty_panics :
    getStreamInfo ⟨[], none⟩ = .panicked ∧
    getStreamInfo ⟨[⟨Padding, []⟩], none⟩ = .failed .noStreamInfo := by
  exact ⟨rfl, by decide⟩

/-- **C8.** After one `WriteTo` that streamed a non-nil byte-backed frame
source, the frame source is replaced by `ErrorReader{ErrorAlreadyWritten}`:
the next `WriteTo` on the updated `File` reaches the frame region and
fails with the distinct `ErrorAlreadyWritten`, and it re-installs the
poisoned reader so every subsequent `WriteTo` fails the same way. -/
theorem C8_writeTo_already_written (f : File) (bs out : List Nat)
    (hfr : f.frames = some (.bytesReader bs))
    (hok : (writeTo f).1 = .ok out) :
    (writeTo (writeTo f).2).1 = .error .alreadyWritten ∧
    (writeTo (writeTo f).2).2.frames =
      some (.errorReader .alreadyWritten) := by
  cases hm : marshalAll f.meta with
  | error e => simp [writeTo, hm] at hok
  | ok body =>
    constructor
    · simp [writeTo, hm, hfr]
    · simp [writeTo, hm, hfr]

/-- Witness for C8 at a one-block file with a two-byte frame source. -/
theorem C8_witness :
    ((⟨[⟨0, [9, 9, 9]⟩], some (.bytesReader [255, 248])⟩ : File).frames =
        some (.bytesReader [255, 248]) ∧
      (writeTo ⟨[⟨0, [9, 9, 9]⟩], some (.bytesReader [255, 248])⟩).1 =
        .ok (magicFLAC ++ [128, 0, 0, 3, 9, 9, 9] ++ [255, 248])) ∧
    (writeTo (writeTo ⟨[⟨0, [9, 9, 9]⟩],
        some (.bytesReader [255, 248])⟩).2).1 = .error .alreadyWritten ∧
    (writeTo (writeTo ⟨[⟨0, [9, 9, 9]⟩],
        some (.bytesReader [255, 248])⟩).2).2.frames =
      some (.errorReader .alreadyWritten) :=
  ⟨⟨rfl, by decide⟩,
    C8_writeTo_already_written _ [255, 248]
      (magicFLAC ++ [128, 0, 0, 3, 9, 9, 9] ++ [255, 248]) rfl (by decide)⟩


theorem getStreamInfoData_short (d : List Nat) (h : d.length < 19) :
    getStreamInfoData d = .error .truncatedStream := by
  rcases d with _ | ⟨a0, d⟩
  · rfl
  rcases d with _ | ⟨a1, d⟩
  · rfl
  rcases d with _ | ⟨a2, d⟩
  · rfl
  rcases d with _ | ⟨a3, d⟩
  · rfl
  rcases d with _ | ⟨a4, d⟩
  · rfl
  rcases d with _ | ⟨a5, d⟩
  · rfl
  rcases d with _ | ⟨a6, d⟩
  · rfl
  rcases d with _ | ⟨a7, d⟩
  · rfl
  rcases d with _ | ⟨a8, d⟩
  · rfl
  rcases d with _ | ⟨a9, d⟩
  · rfl
  rcases d with _ | ⟨a10, d⟩
  · rfl
  rcases d with _ | ⟨a11, d⟩
  · rfl
  rcases d with _ | ⟨a12, d⟩
  · rfl
  rcases d with _ | ⟨a13, d⟩
  · rfl
  rcases d with _ | ⟨a14, d⟩
  · rfl
  rcases d with _ | ⟨a15, d⟩
  · rfl
  rcases d with _ | ⟨a16, d⟩
  · rfl
  rcases d with _ | ⟨a17, d⟩
  · rfl
  rcases d with _ | ⟨a18, d⟩
  · rfl
  exfalso
  simp only [List.length_cons] at h
  omega

theorem marshalOne_error {b : MetaDataBlock} {last : Bool} {e : Err}
    (h : marshalOne b last = .error e) : e = .sizeOverflow := by
  unfold marshalOne at h
  split at h
  · exact absurd h (by simp)
  · exact (Except.error.inj h).symm

theorem marshalAll_error {l : List MetaDataBlock} {e : Err}
    (h : marshalAll l = .error e) : e = .sizeOverflow := by
  induction l with
  | nil => exact absurd h (by simp [marshalAll])
  | cons b tl ih =>
    cases tl with
    | nil => exact marshalOne_error h
    | cons b' tl' =>
      unfold marshalAll at h
      split at h
      · rename_i heq
        cases h
        exact marshalOne_error heq
      · split at h
        · rename_i heq2
          cases h
          exact ih heq2
        · exact absurd h (by simp)

theorem writeTo_error_none {meta : List MetaDataBlock} {e : Err}
    (h : (writeTo ⟨meta, none⟩).1 = .error e) : e = .sizeOverflow := by
  unfold writeTo at h
  split at h
  · rename_i heq
    cases h
    exact marshalAll_error heq
  · simp at h

theorem readAt_error {c : List Nat} {pos n : Nat} {e : Err}
    (h : readAt c pos n = .error e) : e = .ioFailure := by
  unfold readAt at h
  split at h
  · exact absurd h (by simp)
  · exact (Except.error.inj h).symm

theorem shiftFwdAux_error (orig audio delta : Nat) :
    ∀ fuel i content e,
      shiftFwdAux orig audio delta fuel i content = .error e →
      e = .ioFailure := by
  intro fuel
  induction fuel with
  | zero =>
    intro i c e h
    exact (Except.error.inj h).symm
  | succ f ih =>
    intro i c e h
    rw [shiftFwdAux_succ] at h
    split at h
    · split at h
      · rename_i heq
        cases h
        exact readAt_error heq
      · exact ih _ _ _ h
    · exact absurd h (by simp)

theorem shiftBwdAux_error (orig audio negDelta total : Nat) :
    ∀ fuel i content e,
      shiftBwdAux orig audio negDelta total fuel i content = .error e →
      e = .ioFailure := by
  intro fuel
  induction fuel with
  | zero =>
    intro i c e h
    exact (Except.error.inj h).symm
  | succ f ih =>
    intro i c e h
    rw [shiftBwdAux_succ] at h
    split at h
    · by_cases hz : (if total < orig + i + bufferSize then
          total - (orig + i) else bufferSize) = 0
      · rw [if_pos hz] at h
        exact absurd h (by simp)
      · rw [if_neg hz] at h
        split at h
        · rename_i heq
          cases h
          exact readAt_error heq
        · exact ih _ _ _ h
    · exact absurd h (by simp)

/-- **C4 counterexample:** a 33-byte stream-info payload — shorter than
the claimed 34-byte bound — on which `GetStreamInfo` returns successfully
(its checksum zero-padded past the available bytes) instead of failing
with a truncation error. -/
theorem C4_counterexample :
    (exPayload.take 33).length < 34 ∧
    getStreamInfo ⟨[⟨StreamInfo, exPayload.take 33⟩], none⟩ =
      .ok ⟨1152, 1152, 1650, 6130, 96000, 2, 24, 3828096,
        [229, 209, 0, 198, 63, 81, 136, 144, 12, 102, 182, 166, 160, 140,
          226, 0]⟩ ∧
    getStreamInfo ⟨[⟨StreamInfo, exPayload.take 33⟩], none⟩ ≠
      .failed .truncatedStream := by
  exact ⟨by decide, by decide, by decide⟩

/-- **C4 (amended).** For every first-block payload shorter than 19 bytes
(the code's true truncation threshold: the short `bytes.Reader` reads for
payloads of 19–33 bytes succeed without error), `GetStreamInfo` fails with
the truncation error and never returns a `StreamInfoBlock`. -/
theorem C4_short_payload_truncated (b : MetaDataBlock)
    (tl : List MetaDataBlock) (fr : Option FrameReader)
    (hty : b.type = StreamInfo) (hlen : b.data.length < 19) :
    getStreamInfo ⟨b :: tl, fr⟩ = .failed .truncatedStream := by
  obtain ⟨ty, d⟩ := b
  cases hty
  have hcore := getStreamInfoData_short d hlen
  simp [getStreamInfo, StreamInfo, hcore]

/-- Witness for the amended C4 at a 3-byte payload. -/
theorem C4_witness :
    ((⟨StreamInfo, [1, 2, 3]⟩ : MetaDataBlock).type = StreamInfo ∧
      (⟨StreamInfo, [1, 2, 3]⟩ : MetaDataBlock).data.length < 19) ∧
    getStreamInfo ⟨[⟨StreamInfo, [1, 2, 3]⟩], none⟩ =
      .failed .truncatedStream :=
  ⟨⟨rfl, by decide⟩,
    C4_short_payload_truncated ⟨StreamInfo, [1, 2, 3]⟩ [] none rfl
      (by decide)⟩

/-- **C10.** In every run of `saveInPlace` in which the re-parse of the
file succeeds (measuring header offset `origHdr`), the offset is at most
the file size, the computed audio size is non-negative, and consequently
the negative-audio-size corruption-guard branch (`CorruptedLayout`) is
unreachable. -/
theorem C10_corruption_guard_unreachable (meta : List MetaDataBlock)
    (content : List Nat) (origHdr : Nat)
    (h : headerLength content = .ok origHdr) :
    origHdr ≤ content.length ∧
    ¬((content.length : Int) - origHdr < 0) ∧
    saveInPlace meta content ≠ .error .corruptedLayout := by
  have h1 : origHdr ≤ content.length := by
    unfold headerLength at h
    split at h
    · exact absurd h (by simp)
    · cases h
      omega
  refine ⟨h1, by omega, ?_⟩
  intro hcon
  simp only [saveInPlace, h] at hcon
  cases hw : (writeTo ⟨meta, none⟩).1 with
  | error e =>
    have he := writeTo_error_none hw
    simp only [hw, Except.error.injEq] at hcon
    exact absurd (hcon.symm.trans he) (by decide)
  | ok newMeta =>
    simp only [hw] at hcon
    split at hcon
    · omega
    · split at hcon
      · rename_i e heq
        simp only [Except.error.injEq] at hcon
        subst hcon
        split at heq
        · exact absurd (shiftFwdAux_error _ _ _ _ _ _ _ heq) (by decide)
        · split at heq
          · split at heq
            · rename_i e' heq2
              cases heq
              exact absurd (shiftBwdAux_error _ _ _ _ _ _ _ _ heq2)
                (by decide)
            · exact absurd heq (by simp)
          · exact absurd heq (by simp)
      · exact absurd hcon (by simp)

/-- Witness for C10 at the example container. -/
theorem C10_witness :
    headerLength exFlac = .ok 17 ∧
    (17 ≤ exFlac.length ∧
      ¬((exFlac.length : Int) - 17 < 0) ∧
      saveInPlace exMeta exFlac ≠ .error .corruptedLayout) :=
  ⟨by decide, C10_corruption_guard_unreachable exMeta exFlac 17 (by decide)⟩


/-- **C3.** Parsing a valid container and immediately re-serializing the
unedited `File` reproduces the original bytes exactly, on both paths: the
full `WriteTo` stream (magic, re-marshalled blocks, frames) equals the
input, and an unedited in-place save leaves the file's bytes unchanged. -/
theorem C3_roundtrip (s : List Nat) (f : File) (hb : ∀ x ∈ s, x < 256)
    (hp : parseBytes s = .ok f) :
    (writeTo f).1 = .ok s ∧ saveInPlace f.meta s = .ok s := by
  unfold parseBytes at hp
  split at hp
  · exact absurd hp (by simp)
  · rename_i meta rest hpl
    split at hp
    · exact absurd hp (by simp)
    · rename_i fr hcs
      have hfr : fr = rest := checkFLACStream_reconstruct hcs
      subst hfr
      cases hp
      have hpl2 := hpl
      unfold parseMetadataL at hpl2
      split at hpl2
      · exact absurd hpl2 (by simp)
      · rename_i s1 hhead
        have hs : s = magicFLAC ++ s1 := readFLACHead_reconstruct hhead
        have hb1 : ∀ x ∈ s1, x < 256 := by
          intro x hx
          exact hb x (by rw [hs]; exact List.mem_append_right _ hx)
        obtain ⟨hne, body, hma, hbody⟩ :=
          readMetadataBlocksAux_reconstruct (s1.length + 1) s1 meta fr
            hb1 hpl2
        have hsplit2 : s = (magicFLAC ++ body) ++ fr := by
          rw [hs, ← hbody, List.append_assoc]
        have hnm : (magicFLAC ++ body).length = 4 + body.length := by
          simp only [List.length_append, magicFLAC, List.length_cons,
            List.length_nil]
        have hslen : s.length = 4 + body.length + fr.length := by
          rw [hsplit2]
          simp only [List.length_append, magicFLAC, List.length_cons,
            List.length_nil]
          try omega
        constructor
        · show (writeTo ⟨meta, some (.bytesReader fr)⟩).1 = .ok s
          simp only [writeTo, hma]
          rw [hsplit2, List.append_assoc]
        · show saveInPlace meta s = .ok s
          have hhl : headerLength s = .ok (4 + body.length) := by
            unfold headerLength
            simp only [hpl]
            congr 1
            omega
          have hwt : (writeTo ⟨meta, (none : Option FrameReader)⟩).1 =
              .ok (magicFLAC ++ body) := by
            simp only [writeTo, hma]
          unfold saveInPlace
          rw [hhl, hwt]
          simp only [hnm]
          rw [if_neg (by omega)]
          rw [if_neg (by omega), if_neg (by omega)]
          simp only [← hnm, writeAt, List.take_zero, List.nil_append,
            Nat.zero_add, Nat.zero_sub, List.replicate]
          rw [hsplit2, List.drop_left]

/-- Witness for C3 at the example container. -/
theorem C3_witness :
    ((∀ x ∈ exFlac, x < 256) ∧
      parseBytes exFlac =
        .ok ⟨exMeta, some (.bytesReader [255, 248, 1, 2, 3])⟩) ∧
    (writeTo ⟨exMeta, some (.bytesReader [255, 248, 1, 2, 3])⟩).1 =
      .ok exFlac ∧
    saveInPlace (File.mk exMeta
      (some (.bytesReader [255, 248, 1, 2, 3]))).meta exFlac = .ok exFlac :=
  ⟨⟨by decide, by decide⟩,
    C3_roundtrip exFlac ⟨exMeta, some (.bytesReader [255, 248, 1, 2, 3])⟩
      (by decide) (by decide)⟩


/-- **C1.** Whenever `saveInPlace` returns without error on a file-backed
save resolving to the same underlying file, the resulting bytes are
exactly the newly serialized metadata (magic plus blocks, as written by
`WriteTo` with a nil frame source) followed by the original audio-region
bytes byte-for-byte unchanged, and the final size satisfies
`newSize = oldSize + (newHeaderLength − originalHeaderLength)`; in
particular removing a block shrinks the file by exactly that block's
serialized size. -/
theorem C1_saveInPlace (meta : List MetaDataBlock) (content out : List Nat)
    (h : saveInPlace meta content = .ok out) :
    ∃ newHdr origHdr,
      (writeTo ⟨meta, none⟩).1 = .ok newHdr ∧
      headerLength content = .ok origHdr ∧
      out = newHdr ++ content.drop origHdr ∧
      out.length + origHdr = content.length + newHdr.length := by
  unfold saveInPlace at h
  cases hhl : headerLength content with
  | error e =>
    simp only [hhl] at h
    exact absurd h (by simp)
  | ok origHdr =>
    simp only [hhl] at h
    cases hwt : (writeTo ⟨meta, none⟩).1 with
    | error e =>
      simp only [hwt] at h
      exact absurd h (by simp)
    | ok newMeta =>
      have horig : origHdr ≤ content.length := headerLength_le hhl
      simp only [hwt] at h
      rw [if_neg (by omega)] at h
      by_cases hpos : (0 : Int) < (newMeta.length : Int) - (origHdr : Int)
      · rw [if_pos hpos] at h
        have hδN : 0 < newMeta.length - origHdr := by omega
        have htr : truncateFile content
            (content.length + (newMeta.length - origHdr)) =
            content ++ List.replicate (newMeta.length - origHdr) 0 := by
          unfold truncateFile
          rw [if_neg (by omega)]
          congr 2
          omega
        rw [htr] at h
        obtain ⟨out1, ho, holen, hodone⟩ :=
          shiftFwdAux_spec origHdr (content.length - origHdr)
            (newMeta.length - origHdr) content hδN (by omega)
            ((content.length - origHdr) + 1) 0
            (content ++ List.replicate (newMeta.length - origHdr) 0)
            (by omega)
            (by simp only [List.length_append, List.length_replicate])
            (fun p hp => by rw [getD_append_lt _ _ _ (by omega)])
            (fun k hk1 hk2 => absurd hk1 (by omega))
        unfold shiftFwd at h
        rw [ho] at h
        simp only [Except.ok.injEq] at h
        subst h
        refine ⟨newMeta, origHdr, rfl, rfl, ?_, ?_⟩
        · rw [writeAt_zero]
          congr 1
          apply list_ext_getD
          · simp only [List.length_drop, holen]
            omega
          · intro k hk
            simp only [List.length_drop, holen] at hk
            rw [getD_drop, getD_drop]
            rw [show newMeta.length + k =
              origHdr + (newMeta.length - origHdr) + k by omega]
            exact hodone k (by omega)
        · rw [writeAt_zero]
          simp only [List.length_append, List.length_drop, holen]
          omega
      · rw [if_neg hpos] at h
        by_cases hneg : ((newMeta.length : Int) - (origHdr : Int)) < 0
        · rw [if_pos hneg] at h
          have hnegN : 0 < origHdr - newMeta.length := by omega
          cases hbs : shiftBwd origHdr (content.length - origHdr)
              (origHdr - newMeta.length) content.length content with
          | error e =>
            simp only [hbs] at h
            exact absurd h (by simp)
          | ok c1 =>
            simp only [hbs] at h
            obtain ⟨out1, ho, holen, homv⟩ :=
              shiftBwdAux_spec origHdr (content.length - origHdr)
                (origHdr - newMeta.length) content hnegN (by omega)
                (by omega) ((content.length - origHdr) + 1) 0 content
                (by omega) rfl (fun p _ _ => rfl)
                (fun k hk1 hk2 => absurd hk2 (by omega))
            unfold shiftBwd at hbs
            rw [ho] at hbs
            have hc1 : out1 = c1 := Except.ok.inj hbs
            subst hc1
            have htr2 : truncateFile out1
                (content.length - (origHdr - newMeta.length)) =
                out1.take (content.length - (origHdr - newMeta.length)) := by
              unfold truncateFile
              rw [if_pos (by omega)]
            rw [htr2] at h
            simp only [Except.ok.injEq] at h
            subst h
            refine ⟨newMeta, origHdr, rfl, rfl, ?_, ?_⟩
            · rw [writeAt_zero]
              congr 1
              apply list_ext_getD
              · simp only [List.length_drop, List.length_take, holen]
                omega
              · intro k hk
                simp only [List.length_drop, List.length_take, holen] at hk
                rw [getD_drop, getD_drop]
                rw [getD_take _ _ _ (by omega)]
                rw [show newMeta.length + k =
                  origHdr - (origHdr - newMeta.length) + k by omega]
                exact homv k (by omega)
            · rw [writeAt_zero]
              simp only [List.length_append, List.length_drop,
                List.length_take, holen]
              omega
        · rw [if_neg hneg] at h
          simp only [Except.ok.injEq] at h
          subst h
          refine ⟨newMeta, origHdr, rfl, rfl, ?_, ?_⟩
          · rw [writeAt_zero]
            rw [show newMeta.length = origHdr by omega]
          · rw [writeAt_zero]
            simp only [List.length_append, List.length_drop]
            omega


/-- Witness for C1: an in-place save of the example container with an
appended padding block (the expand path). -/
theorem C1_witness :
    saveInPlace exMetaGrow exFlac = .ok exFlacGrown ∧
    ∃ newHdr origHdr,
      (writeTo ⟨exMetaGrow, none⟩).1 = .ok newHdr ∧
      headerLength exFlac = .ok origHdr ∧
      exFlacGrown = newHdr ++ exFlac.drop origHdr ∧
      exFlacGrown.length + origHdr = exFlac.length + newHdr.length :=
  ⟨by decide, C1_saveInPlace exMetaGrow exFlac exFlacGrown (by decide)⟩

end GoFlac
